import Mathlib

/-!
Verification development for the EasyEDA-to-KiCad translation engine.

Each definition below is a shallow embedding of one function of the
repository (file `easyeda2kicad/kicad/export_kicad_footprint.py`, plus the
multi-unit emission decision of `easyeda2kicad/service/conversion.py` /
`easyeda2kicad/__main__.py` and the flat-grammar delete operation of
`easyeda2kicad/__main__.py`).  Python floats are modelled by exact
rationals where the code is pure arithmetic, and by real numbers where the
code uses transcendental functions (`cos`, `sin`, `acos`, `sqrt`).
Python's `round(x, 2)` (round-half-even to two decimals) is modelled
exactly; Python string results that merely format numbers are modelled by
structured values carrying the same numbers in the same order.
-/

/-- Python scalar that may be blank (`""`), `None`, NaN, or a number.
`fp_to_ki` in the source passes the first three through unchanged. -/
inductive PyDim where
  | blank : PyDim
  | pynone : PyDim
  | nan : PyDim
  | num (q : ℚ) : PyDim
deriving DecidableEq, Repr

/-- Round-half-even to an integer, the semantics of Python `round` on an
exactly representable value. -/
def roundHalfEven (q : ℚ) : ℤ :=
  if q - ⌊q⌋ = 1 / 2 then (if ⌊q⌋ % 2 = 0 then ⌊q⌋ else ⌊q⌋ + 1) else round q

/-- Python `round(x, 2)`. -/
def round2 (q : ℚ) : ℚ := (roundHalfEven (q * 100) : ℚ) / 100

/-- Embedding of `fp_to_ki` (export_kicad_footprint.py lines 116-119):
blank/None/NaN pass through, a number is scaled by `10 * 0.0254` and
rounded to two decimals. -/
def fp_to_ki : PyDim → PyDim
  | PyDim.num q => PyDim.num (round2 (q * 10 * (254 / 10000)))
  | d => d

/-- Structured value of the drill string returned by `drill_to_ki`:
`""`, `(drill d)`, or `(drill oval a b)` with the numbers in order. -/
inductive DrillShape where
  | noDrill : DrillShape
  | round (d : ℚ) : DrillShape
  | oval (a b : ℚ) : DrillShape
deriving DecidableEq, Repr

/-- Embedding of `drill_to_ki` (export_kicad_footprint.py lines 125-145).
`hole_length` is `none` when the Python value is `""` or `None`. -/
def drill_to_ki (hole_radius : ℚ) (hole_length : Option ℚ)
    (pad_height pad_width : ℚ) : DrillShape :=
  match hole_length with
  | some l =>
    if hole_radius > 0 ∧ l ≠ 0 then
      let max_distance_hole := max (hole_radius * 2) l
      let pos_0 := pad_height - max_distance_hole
      let pos_90 := pad_width - max_distance_hole
      let max_distance := max pos_0 pos_90
      if max_distance = pos_0 then DrillShape.oval (hole_radius * 2) l
      else DrillShape.oval l (hole_radius * 2)
    else if hole_radius > 0 then DrillShape.round (2 * hole_radius)
    else DrillShape.noDrill
  | none =>
    if hole_radius > 0 then DrillShape.round (2 * hole_radius)
    else DrillShape.noDrill

/-- Input of `angle_to_ki`: a float that may be NaN. -/
inductive PyAngle where
  | nan : PyAngle
  | num (q : ℚ) : PyAngle
deriving DecidableEq, Repr

/-- Output of `angle_to_ki`: the empty string for NaN, else a number. -/
inductive KiAngle where
  | empty : KiAngle
  | num (q : ℚ) : KiAngle
deriving DecidableEq, Repr

/-- Embedding of `angle_to_ki` (export_kicad_footprint.py lines 151-154). -/
def angle_to_ki : PyAngle → KiAngle
  | PyAngle.nan => KiAngle.empty
  | PyAngle.num r => KiAngle.num (if r > 180 then -(360 - r) else r)

/-- The two symbol-library grammars (KiCad versions) of the repository. -/
inductive KicadVersion where
  | v5 : KicadVersion
  | v6 : KicadVersion
deriving DecidableEq, Repr

/-- Embedding of the multi-unit emission decision of `run_conversion`
(service/conversion.py lines 273-284) and `main` (__main__.py lines
336-347): extra exported units are written only for the v6 grammar,
otherwise a warning is recorded and they are dropped.  The result is
(content written to the library for the extra units, warning flag). -/
def emit_sub_symbols (subs : List String) (v : KicadVersion) :
    Option (List String) × Bool :=
  if subs ≠ [] ∧ v = KicadVersion.v6 then (some subs, false)
  else if subs ≠ [] then (none, true)
  else (none, false)

/-- The segment `#\n# {component_name}\n#\n` opening a flat-grammar block
in the delete pattern of `delete_component_in_symbol_lib`
(__main__.py lines 216-229).  The source interpolates `component_name`
raw into the pattern, so its characters are regex syntax; the fixed
characters around it are all ordinary (non-special) characters. -/
def litName (namec : List Char) : List Char :=
  ['#', '\n', '#', ' '] ++ namec ++ ['\n', '#', '\n']

/-- The segment `F6 "{component_id}"` of the delete pattern, with
`component_id` likewise interpolated raw. -/
def litId (idc : List Char) : List Char :=
  ['F', '6', ' ', '"'] ++ idc ++ ['"']

/-- The literal `ENDDEF\n`, the flat grammar's block terminator. -/
def litEnd : List Char := ['E', 'N', 'D', 'D', 'E', 'F', '\n']

/-- The characters that are special in a Python regular expression
pattern. -/
def regexMetachars : List Char :=
  ['.', '^', '$', '*', '+', '?', '{', '}', '[', ']', '\\', '|', '(', ')']

/-- A name/ID character for which the interpolated pattern stays inside
the fragment this embedding models: either the `.` wildcard or an
ordinary (non-special) character matched literally.  Other
metacharacters make the source's pattern use unmodeled regex features or
fail to compile (`re.error`, e.g. for an unbalanced `(`). -/
def modeledPatternChar (c : Char) : Bool :=
  c == '.' || !(regexMetachars.contains c)

/-- One pattern character against one subject character, with Python's
DOTALL semantics: `.` matches every character, any other character in
the modeled fragment matches itself. -/
def matchesToken (p c : Char) : Bool :=
  p == '.' || p == c

/-- Whether the pattern-character list matches a prefix of the subject. -/
def matchesPrefix : List Char → List Char → Bool
  | [], _ => true
  | _ :: _, [] => false
  | p :: ps, c :: cs => matchesToken p c && matchesPrefix ps cs

/-- Index of the first position where the pattern-character list matches,
if any. -/
def findPattern (needle : List Char) : List Char → Option Nat
  | [] => if matchesPrefix needle [] then some 0 else none
  | c :: rest =>
    if matchesPrefix needle (c :: rest) then some 0
    else (findPattern needle rest).map (· + 1)

/-- Length of the leftmost-minimal match of the delete regex
`#\n# {name}\n#\n.*?F6 "{id}".*?ENDDEF\n` (DOTALL, non-greedy) anchored
at the head of `rest`, if the pattern matches there, with the raw
interpolation of name/id interpreted by `matchesToken` (`.` wildcard,
other modeled characters literal).  Because the two `.*?` gaps are
followed by fixed-length segments, the non-greedy match takes the first
position where each following segment matches. -/
def matchAt (idc namec rest : List Char) : Option Nat :=
  let A := litName namec
  if matchesPrefix A rest then
    let r1 := rest.drop A.length
    match findPattern (litId idc) r1 with
    | none => none
    | some i =>
      let r2 := r1.drop (i + (litId idc).length)
      match findPattern litEnd r2 with
      | none => none
      | some j => some (A.length + i + (litId idc).length + j + litEnd.length)
  else none

/-- Fuelled scan of `re.sub(pattern, "", content)`: at each position either
remove a match of the pattern or keep the character and move on.  The fuel
only bounds the recursion; `content.length` is always enough because every
step consumes at least one character. -/
def deleteAux (idc namec : List Char) : Nat → List Char → List Char
  | 0, content => content
  | _ + 1, [] => []
  | fuel + 1, c :: rest =>
    match matchAt idc namec (c :: rest) with
    | some len => deleteAux idc namec fuel ((c :: rest).drop len)
    | none => c :: deleteAux idc namec fuel rest

/-- Embedding of `delete_component_in_symbol_lib` (__main__.py lines
216-229): `re.sub` of the pattern
`#\n# {component_name}\n#\n.*?F6 "{component_id}".*?ENDDEF\n` (DOTALL)
with the empty string.  The source interpolates name and ID into the
pattern without escaping, so their characters are regex syntax.  The
embedding covers the fragment where every name/ID character is either
the `.` wildcard or an ordinary character; outside it the source's
behavior is not modeled (the pattern may fail to compile and raise
`re.error`, e.g. an unbalanced `(`, or use quantifier/class semantics)
and the result is `none`. -/
def delete_component_in_symbol_lib (content idc namec : List Char) :
    Option (List Char) :=
  if (idc ++ namec).all modeledPatternChar then
    some (deleteAux idc namec content.length content)
  else none

/-- A one-block flat-grammar library for component `Rx5` with ID `C1`:
the text `#\n# Rx5\n#\nF6 "C1"\nENDDEF\n`. -/
def demoContent : List Char :=
  ['#', '\n', '#', ' ', 'R', 'x', '5', '\n', '#', '\n',
   'F', '6', ' ', '"', 'C', '1', '"', '\n',
   'E', 'N', 'D', 'D', 'E', 'F', '\n']

/-- Whether the interpolated delete pattern matches anywhere in
`content`. -/
def hasDeleteMatch (idc namec : List Char) : List Char → Bool
  | [] => (matchAt idc namec []).isSome
  | c :: rest =>
    (matchAt idc namec (c :: rest)).isSome || hasDeleteMatch idc namec rest

/-- Python `str.split(sep)` for a one-character separator. -/
def pySplit (sep : Char) : List Char → List (List Char)
  | [] => [[]]
  | c :: rest =>
    let r := pySplit sep rest
    if c = sep then [] :: r
    else
      match r with
      | [] => [[c]]
      | h :: t => (c :: h) :: t

/-- Embedding of the pad-number rewrite of
`ExporterFootprintKicad.generate_kicad_footprint`
(export_kicad_footprint.py lines 496-497):
`number.split("(")[1].split(")")[0]` when the number contains both
parentheses, else the number unchanged. -/
def pad_number_transform (s : List Char) : List Char :=
  if '(' ∈ s ∧ ')' ∈ s then
    ((pySplit ')' ((pySplit '(' s).getD 1 [])).getD 0 [])
  else s

/-- The extraction as the claim words it: the substring strictly between
the first `(` and the next `)` after it. -/
def spec_between_parens (s : List Char) : List Char :=
  ((s.dropWhile (· != '(')).drop 1).takeWhile (· != ')')

/-- Python `%` on floats: `a - b * floor(a / b)`. -/
noncomputable def fmod (a b : ℝ) : ℝ := a - b * ⌊a / b⌋

/-- Embedding of `to_radians` (export_kicad_footprint.py line 13). -/
noncomputable def to_radians (n : ℝ) : ℝ := (n / 180) * Real.pi

/-- Embedding of `to_degrees` (export_kicad_footprint.py line 17). -/
noncomputable def to_degrees (n : ℝ) : ℝ := (n / Real.pi) * 180

/-- Embedding of `rotate` (export_kicad_footprint.py lines 160-164); note
the source converts `degrees` to radians as `(degrees / 180) * 2 * pi`. -/
noncomputable def rotate (x y degrees : ℝ) : ℝ × ℝ :=
  let radians := degrees / 180 * 2 * Real.pi
  (x * Real.cos radians - y * Real.sin radians,
   x * Real.sin radians + y * Real.cos radians)

open Classical in
/-- Embedding of `compute_arc` (export_kicad_footprint.py lines 25-110),
the SVG endpoint-to-center arc parameterization.  Divisions whose
denominator the source guards with `!= 0` checks keep those guards;
the one unguarded division by `radius_y` (line 77) uses Lean's total
division, which the callers never reach with `radius_y = 0`. -/
noncomputable def compute_arc (start_x start_y radius_x0 radius_y0 angle0 : ℝ)
    (large_arc_flag sweep_flag : Bool) (end_x end_y : ℝ) : ℝ × ℝ × ℝ :=
  let dx2 := (start_x - end_x) / 2
  let dy2 := (start_y - end_y) / 2
  let angle := to_radians (fmod angle0 360)
  let cos_angle := Real.cos angle
  let sin_angle := Real.sin angle
  let x1 := cos_angle * dx2 + sin_angle * dy2
  let y1 := -sin_angle * dx2 + cos_angle * dy2
  let radius_x := |radius_x0|
  let radius_y := |radius_y0|
  let Pradius_x := radius_x * radius_x
  let Pradius_y := radius_y * radius_y
  let Px1 := x1 * x1
  let Py1 := y1 * y1
  let radiiCheck :=
    if Pradius_x ≠ 0 ∧ Pradius_y ≠ 0 then Px1 / Pradius_x + Py1 / Pradius_y
    else 0
  let radius_x := if radiiCheck > 1 then Real.sqrt radiiCheck * radius_x
    else radius_x
  let radius_y := if radiiCheck > 1 then Real.sqrt radiiCheck * radius_y
    else radius_y
  let Pradius_x := radius_x * radius_x
  let Pradius_y := radius_y * radius_y
  let sign : ℝ := if large_arc_flag = sweep_flag then -1 else 1
  let sq :=
    if Pradius_x * Py1 + Pradius_y * Px1 > 0 then
      (Pradius_x * Pradius_y - Pradius_x * Py1 - Pradius_y * Px1) /
        (Pradius_x * Py1 + Pradius_y * Px1)
    else 0
  let sq := max sq 0
  let coef := sign * Real.sqrt sq
  let cx1 := coef * (radius_x * y1 / radius_y)
  let cy1 := if radius_x ≠ 0 then coef * -(radius_y * x1 / radius_x) else 0
  let sx2 := (start_x + end_x) / 2
  let sy2 := (start_y + end_y) / 2
  let cx := sx2 + (cos_angle * cx1 - sin_angle * cy1)
  let cy := sy2 + (sin_angle * cx1 + cos_angle * cy1)
  let ux := if radius_x ≠ 0 then (x1 - cx1) / radius_x else 0
  let uy := if radius_y ≠ 0 then (y1 - cy1) / radius_y else 0
  let vx := if radius_x ≠ 0 then (-x1 - cx1) / radius_x else 0
  let vy := if radius_y ≠ 0 then (-y1 - cy1) / radius_y else 0
  let n := Real.sqrt ((ux * ux + uy * uy) * (vx * vx + vy * vy))
  let p := ux * vx + uy * vy
  let sign2 : ℝ := if ux * vy - uy * vx < 0 then -1 else 1
  let angle_extent :=
    if n ≠ 0 then to_degrees (sign2 * Real.arccos (max (-1) (min 1 (p / n))))
    else 360 + 359
  let angle_extent :=
    if sweep_flag = false ∧ angle_extent > 0 then angle_extent - 360
    else if sweep_flag = true ∧ angle_extent < 0 then angle_extent + 360
    else angle_extent
  let angleExtent_sign : ℝ := if angle_extent < 0 then 1 else -1
  let angle_extent := fmod |angle_extent| 360 * angleExtent_sign
  (cx, cy, angle_extent)

/-- The geometric fields of a `KiFootprintArc` as filled in by the
footprint translator (`start_x`/`start_y` receive the computed center). -/
structure KiFootprintArc where
  start_x : ℝ
  start_y : ℝ
  end_x : ℝ
  end_y : ℝ
  angle : ℝ

open Classical in
/-- Embedding of the per-arc translation step of
`ExporterFootprintKicad.generate_kicad_footprint`
(export_kicad_footprint.py lines 649-702), taking the already parsed and
unit-converted arc parameters: when the secondary radius is zero the
degenerate arc `(0, 0, extent 0)` is emitted without invoking
`compute_arc`. -/
noncomputable def translate_arc (start_x start_y rx ry x_axis_rotation : ℝ)
    (large_arc sweep : Bool) (end_x end_y : ℝ) : KiFootprintArc :=
  let r := rotate rx ry 0
  if r.2 ≠ 0 then
    let c := compute_arc start_x start_y r.1 r.2 x_axis_rotation large_arc
      sweep end_x end_y
    ⟨c.1, c.2.1, end_x, end_y, c.2.2⟩
  else ⟨0, 0, end_x, end_y, 0⟩

/-- Embedding of `is_on_segment` (export_kicad_footprint.py lines
170-178), with the source's epsilon `1e-9`. -/
def is_on_segment (x0 y0 x1 y1 px py : ℝ) : Prop :=
  min x0 x1 ≤ px ∧ px ≤ max x0 x1 ∧ min y0 y1 ≤ py ∧ py ≤ max y0 y1 ∧
    |(px - x0) * (y1 - y0) - (py - y0) * (x1 - x0)| < 1 / 1000000000

/-- Embedding of `is_left` (export_kicad_footprint.py lines 181-182). -/
def is_left (x0 y0 x1 y1 px py : ℝ) : Prop :=
  (x1 - x0) * (py - y0) - (y1 - y0) * (px - x0) > 0

/-- The directed edge list `(polygon[i], polygon[(i+1) % n])` iterated by
`is_point_in_polygon`. -/
def polygonEdgesAux (first : ℝ × ℝ) : List (ℝ × ℝ) →
    List ((ℝ × ℝ) × (ℝ × ℝ))
  | [] => []
  | [p] => [(p, first)]
  | p :: q :: rest => (p, q) :: polygonEdgesAux first (q :: rest)

/-- All directed edges of a polygon, wrapping around at the end. -/
def polygonEdges : List (ℝ × ℝ) → List ((ℝ × ℝ) × (ℝ × ℝ))
  | [] => []
  | p :: ps => polygonEdgesAux p (p :: ps)

open Classical in
/-- One edge's contribution to the winding number in
`is_point_in_polygon` (export_kicad_footprint.py lines 199-202). -/
noncomputable def windingContribution (e : (ℝ × ℝ) × (ℝ × ℝ))
    (px py : ℝ) : ℤ :=
  if e.1.2 ≤ py ∧ py < e.2.2 ∧ is_left e.1.1 e.1.2 e.2.1 e.2.2 px py then 1
  else if e.2.2 ≤ py ∧ py < e.1.2 ∧
      ¬is_left e.1.1 e.1.2 e.2.1 e.2.2 px py then -1
  else 0

/-- Embedding of `is_point_in_polygon` (export_kicad_footprint.py lines
185-204): true when the point lies on some edge (the loop returns early)
or the winding number over all edges is nonzero. -/
noncomputable def is_point_in_polygon (point : ℝ × ℝ)
    (polygon : List (ℝ × ℝ)) : Prop :=
  (∃ e ∈ polygonEdges polygon,
    is_on_segment e.1.1 e.1.2 e.2.1 e.2.2 point.1 point.2) ∨
  ((polygonEdges polygon).map
    (fun e => windingContribution e point.1 point.2)).sum ≠ 0

/-- Embedding of `get_circumscribed_regular_polygon`
(export_kicad_footprint.py lines 207-214). -/
noncomputable def get_circumscribed_regular_polygon (center : ℝ × ℝ)
    (radius : ℝ) (n : ℕ) : List (ℝ × ℝ) :=
  (List.range n).map fun i =>
    (center.1 + radius * Real.cos (2 * Real.pi * i / n),
     center.2 + radius * Real.sin (2 * Real.pi * i / n))

/-- Embedding of `is_circle_in_polygon` (export_kicad_footprint.py lines
217-223): every vertex of the inscribed regular 12-gon must pass the
point-in-polygon test. -/
noncomputable def is_circle_in_polygon (center : ℝ × ℝ) (radius : ℝ)
    (polygon : List (ℝ × ℝ)) : Prop :=
  ∀ v ∈ get_circumscribed_regular_polygon center radius 12,
    is_point_in_polygon v polygon

/-- Python `min` over a list of floats (the empty case never occurs in
the source, which would raise there; it is mapped to `0`). -/
noncomputable def listMin : List ℝ → ℝ
  | [] => 0
  | x :: xs => xs.foldl min x

/-- Python `max` over a list of floats. -/
noncomputable def listMax : List ℝ → ℝ
  | [] => 0
  | x :: xs => xs.foldl max x

/-- Embedding of `get_bounds_of_polygon` (export_kicad_footprint.py lines
226-233): `(min_x, max_x, min_y, max_y)`. -/
noncomputable def get_bounds_of_polygon (polygon : List (ℝ × ℝ)) :
    ℝ × ℝ × ℝ × ℝ :=
  (listMin (polygon.map Prod.fst), listMax (polygon.map Prod.fst),
   listMin (polygon.map Prod.snd), listMax (polygon.map Prod.snd))

/-- Python `int()` on a float: truncation toward zero. -/
noncomputable def pyTrunc (q : ℝ) : ℤ := if q < 0 then -⌊-q⌋ else ⌊q⌋

open Classical in
/-- Embedding of `frange` (export_kicad_footprint.py lines 236-239):
`count = int((stop - start) / step) + 1` grid points
`start + step * i`. -/
noncomputable def frange (start stop step : ℝ) : List ℝ :=
  let count := pyTrunc ((stop - start) / step) + 1
  (List.range count.toNat).map fun i : ℕ => start + step * (i : ℝ)

open Classical in
/-- Embedding of `find_circle_center_in_polygon`
(export_kicad_footprint.py lines 242-253): scan the bounding box on a
grid of step `0.05`, `x` outer and `y` inner, both ascending, returning
the first grid point whose inscribed 12-gon passes the containment
test. -/
noncomputable def find_circle_center_in_polygon
    (polygon : List (ℝ × ℝ)) (radius : ℝ) : Option (ℝ × ℝ) :=
  let b := get_bounds_of_polygon polygon
  let step : ℝ := 1 / 20
  (frange b.1 b.2.1 step).findSome? fun x =>
    ((frange b.2.2.1 b.2.2.2 step).find? fun y =>
      decide (is_circle_in_polygon (x, y) radius polygon)).map
      fun y => (x, y)

open Classical in
/-- Embedding of `set_appropriate_position_for_custom_shape`
(export_kicad_footprint.py lines 256-272) as a pure function: result is
the pad's (possibly replaced) center and whether the non-fatal warning
was logged. -/
noncomputable def set_appropriate_position_for_custom_shape
    (pos : ℝ × ℝ) (width : ℝ) (polygon : List (ℝ × ℝ)) :
    (ℝ × ℝ) × Bool :=
  let radius := width / 2
  if is_circle_in_polygon pos radius polygon then (pos, false)
  else
    match find_circle_center_in_polygon polygon radius with
    | none => (pos, true)
    | some new_center => (new_center, false)

/-- The square polygon `[(0,0),(10,0),(10,10),(0,10)]` of the claimed
anchor-search test. -/
def squarePoly : List (ℝ × ℝ) := [(0, 0), (10, 0), (10, 10), (0, 10)]

/- ------------------------------------------------------------------ -/
/- Theorems -/
/- ------------------------------------------------------------------ -/

/-- C1 counterexample: at `drill_to_ki 1 (some 3) 4 2` the height margin
(4 - 3 = 1) is larger than the width margin (2 - 3 = -1), yet the code
returns `(drill oval 2 3)`, not the `(drill oval holeLength 2*holeRadius)
= (drill oval 3 2)` stated by the claim. -/
theorem drill_to_ki_claim_false :
    drill_to_ki 1 (some 3) 4 2 = DrillShape.oval 2 3 ∧
    (4 : ℚ) - max (1 * 2) 3 > 2 - max (1 * 2) 3 ∧
    DrillShape.oval 2 3 ≠ DrillShape.oval 3 2 := by
  refine ⟨?_, by norm_num, by decide⟩
  have h1 : (1 : ℚ) > 0 ∧ (3 : ℚ) ≠ 0 := by norm_num
  simp only [drill_to_ki, if_pos h1]
  rw [if_pos (max_eq_left (by norm_num))]
  norm_num [DrillShape.oval.injEq]

/-- C1 (amended): with `holeRadius > 0` and a present, positive
`holeLength`, the result is the oval `(drill oval 2*holeRadius holeLength)`
when the height margin is larger or equal, and
`(drill oval holeLength 2*holeRadius)` when the width margin is strictly
larger; with only `holeRadius > 0` the result is the round drill
`(drill 2*holeRadius)`; otherwise no drill. -/
theorem drill_to_ki_spec (hr l ph pw : ℚ) :
    (hr > 0 → l ≠ 0 →
      pw - max (hr * 2) l ≤ ph - max (hr * 2) l →
      drill_to_ki hr (some l) ph pw = DrillShape.oval (hr * 2) l) ∧
    (hr > 0 → l ≠ 0 →
      ph - max (hr * 2) l < pw - max (hr * 2) l →
      drill_to_ki hr (some l) ph pw = DrillShape.oval l (hr * 2)) ∧
    (hr > 0 → drill_to_ki hr none ph pw = DrillShape.round (2 * hr)) ∧
    (hr > 0 → drill_to_ki hr (some 0) ph pw = DrillShape.round (2 * hr)) ∧
    (hr ≤ 0 → ∀ ol : Option ℚ, drill_to_ki hr ol ph pw = DrillShape.noDrill) := by
  refine ⟨?_, ?_, ?_, ?_, ?_⟩
  · intro hhr hl hle
    simp only [drill_to_ki, if_pos (And.intro hhr hl)]
    rw [if_pos (max_eq_left hle)]
  · intro hhr hl hlt
    simp only [drill_to_ki, if_pos (And.intro hhr hl)]
    rw [if_neg (by rw [max_eq_right hlt.le]; exact hlt.ne')]
  · intro hhr
    simp only [drill_to_ki, if_pos hhr]
  · intro hhr
    have : ¬(hr > 0 ∧ (0 : ℚ) ≠ 0) := by simp
    simp only [drill_to_ki, if_neg this, if_pos hhr]
  · intro hhr ol
    have h1 : ¬hr > 0 := not_lt.mpr hhr
    match ol with
    | none => simp only [drill_to_ki, if_neg h1]
    | some l =>
      have : ¬(hr > 0 ∧ l ≠ 0) := fun h => h1 h.1
      simp only [drill_to_ki, if_neg this, if_neg h1]

/-- C1 amended-claim witness at the spec's own example
`drillShape(1.0, 3.0, padHeight=4, padWidth=2)`. -/
theorem drill_to_ki_spec_witness :
    drill_to_ki 1 (some 3) 4 2 = DrillShape.oval (1 * 2) 3 :=
  (drill_to_ki_spec 1 3 4 2).1 (by norm_num) (by norm_num) (by norm_num)

/-- Round-half-even differs from its argument by at most one half. -/
theorem roundHalfEven_sub_le (q : ℚ) : |(roundHalfEven q : ℚ) - q| ≤ 1 / 2 := by
  unfold roundHalfEven
  by_cases h : q - ⌊q⌋ = 1 / 2
  · rw [if_pos h]
    by_cases h2 : ⌊q⌋ % 2 = 0
    · rw [if_pos h2, abs_le]
      constructor <;> linarith
    · rw [if_neg h2]
      push_cast
      rw [abs_le]
      constructor <;> linarith
  · rw [if_neg h, abs_sub_comm]
    exact abs_sub_round q

/-- Rounding to two decimals moves a rational by at most `1/200`. -/
theorem round2_sub_le (q : ℚ) : |round2 q - q| ≤ 1 / 200 := by
  have h := roundHalfEven_sub_le (q * 100)
  rw [abs_le] at h ⊢
  unfold round2
  constructor <;> [linarith; linarith]

/-- C2 counterexample: `fp_to_ki` is not linear because of the final
rounding: at `x = 0.05` the code gives `fp_to_ki(0.1) = 0.03` but
`2 * fp_to_ki(0.05) = 0.02`. -/
theorem fp_to_ki_claim_false :
    fp_to_ki (PyDim.num (1 / 10)) = PyDim.num (3 / 100) ∧
    fp_to_ki (PyDim.num (1 / 20)) = PyDim.num (1 / 100) ∧
    (1 / 10 : ℚ) = 2 * (1 / 20) ∧ (3 / 100 : ℚ) ≠ 2 * (1 / 100) := by
  refine ⟨?_, ?_, by norm_num, by norm_num⟩ <;>
    norm_num [fp_to_ki, round2, roundHalfEven, round_eq]

/-- C2 (amended): the conversion is linear before the final rounding, so
`fp_to_ki(2x)` and `2 * fp_to_ki(x)` agree only to within the rounding
slack `0.015`; blank, `None` and NaN inputs pass through unchanged. -/
theorem fp_to_ki_spec (x : ℚ) :
    (∃ u v : ℚ, fp_to_ki (PyDim.num (2 * x)) = PyDim.num u ∧
      fp_to_ki (PyDim.num x) = PyDim.num v ∧ |u - 2 * v| ≤ 3 / 200) ∧
    fp_to_ki PyDim.blank = PyDim.blank ∧
    fp_to_ki PyDim.pynone = PyDim.pynone ∧
    fp_to_ki PyDim.nan = PyDim.nan := by
  refine ⟨⟨round2 (2 * x * 10 * (254 / 10000)), round2 (x * 10 * (254 / 10000)),
    rfl, rfl, ?_⟩, rfl, rfl, rfl⟩
  have h1 := round2_sub_le (2 * x * 10 * (254 / 10000))
  have h2 := round2_sub_le (x * 10 * (254 / 10000))
  rw [abs_le] at h1 h2 ⊢
  constructor <;> [linarith; linarith]

/-- C3 counterexample: the claim says the normalized rotation always lies
in `[-180, 180)`, but the code maps `180` to `180`, which is not below
`180` (the spec's own test `normalizeAngle(180) == 180` agrees with the
code; moreover out-of-range inputs such as `-200` pass through). -/
theorem angle_to_ki_claim_false :
    angle_to_ki (PyAngle.num 180) = KiAngle.num 180 ∧ ¬((180 : ℚ) < 180) ∧
    angle_to_ki (PyAngle.num (-200)) = KiAngle.num (-200) ∧
    ¬((-180 : ℚ) ≤ -200) := by
  refine ⟨?_, by norm_num, ?_, by norm_num⟩ <;> norm_num [angle_to_ki]

/-- C3 (amended): for a numeric rotation in `[0, 360)` the normalized
value lies in the half-open interval `(-180, 180]`. -/
theorem angle_to_ki_range (r : ℚ) (h0 : 0 ≤ r) (h1 : r < 360) :
    ∃ v : ℚ, angle_to_ki (PyAngle.num r) = KiAngle.num v ∧
      -180 < v ∧ v ≤ 180 := by
  by_cases h : r > 180
  · exact ⟨-(360 - r), by simp [angle_to_ki, if_pos h], by linarith, by linarith⟩
  · exact ⟨r, by simp [angle_to_ki, if_neg h], by linarith, by linarith⟩

/-- C3 amended-claim witness at the spec's example `normalizeAngle(200)`. -/
theorem angle_to_ki_range_witness :
    ∃ v : ℚ, angle_to_ki (PyAngle.num 200) = KiAngle.num v ∧
      -180 < v ∧ v ≤ 180 :=
  angle_to_ki_range 200 (by norm_num) (by norm_num)

/-- C8: when extra exported symbol units exist, they are written only for
the v6 (s-expression) grammar; for the legacy grammar they are dropped
and a warning is recorded. -/
theorem emit_sub_symbols_spec (subs : List String) (v : KicadVersion)
    (h : subs ≠ []) :
    (v = KicadVersion.v6 → emit_sub_symbols subs v = (some subs, false)) ∧
    (v ≠ KicadVersion.v6 → emit_sub_symbols subs v = (none, true)) := by
  constructor
  · intro hv
    simp only [emit_sub_symbols, if_pos (And.intro h hv)]
  · intro hv
    have hh : ¬(subs ≠ [] ∧ v = KicadVersion.v6) := fun hc => hv hc.2
    simp only [emit_sub_symbols, if_neg hh, if_pos h]

/-- C8 witness: one extra unit against a legacy (v5) library is dropped
with a warning. -/
theorem emit_sub_symbols_spec_witness :
    emit_sub_symbols ["unit"] KicadVersion.v5 = (none, true) :=
  (emit_sub_symbols_spec ["unit"] KicadVersion.v5 (by simp)).2 (by simp)

/-- The fuelled delete scan is the identity when the pattern matches
nowhere, for any amount of fuel. -/
theorem deleteAux_no_match (idc namec : List Char) :
    ∀ (fuel : Nat) (content : List Char),
      hasDeleteMatch idc namec content = false →
      deleteAux idc namec fuel content = content := by
  intro fuel
  induction fuel with
  | zero => intro content _; rfl
  | succ n ih =>
    intro content h
    match content with
    | [] => rfl
    | c :: rest =>
      simp only [hasDeleteMatch, Bool.or_eq_false_iff] at h
      obtain ⟨h1, h2⟩ := h
      cases hm : matchAt idc namec (c :: rest) with
      | some v => rw [hm] at h1; simp at h1
      | none => simp only [deleteAux, hm]; rw [ih rest h2]

/-- C9 counterexample: the source interpolates the component name raw
into the regex, so a `.` in the name matches any character.  Deleting
component `R.5` (ID `C1`) from a library holding only a block for the
differently named `Rx5` — no block matches the delete target, whose name
marker `#\n# R.5\n#\n` occurs nowhere in the content — nevertheless
deletes that block, so the result is not byte-identical.  (A name with
an unbalanced `(` even makes the source raise `re.error`; that path lies
outside the modeled fragment, where the embedding returns `none`.) -/
theorem delete_component_claim_false :
    ¬(litName ['R', '.', '5'] <:+: demoContent) ∧
    delete_component_in_symbol_lib demoContent ['C', '1'] ['R', '.', '5'] =
      some [] ∧
    some ([] : List Char) ≠ some demoContent ∧
    delete_component_in_symbol_lib demoContent ['C', '1'] ['X', '('] =
      none := by
  refine ⟨by decide, by decide, by decide, by decide⟩

/-- C9 (amended): when the component name and ID contain no regex
metacharacters — so the interpolated pattern matches exactly the literal
delete target — and the pattern matches nowhere in the content, the
delete operation returns the content byte-identical and does not raise
(it is total on this fragment). -/
theorem delete_component_no_match (content idc namec : List Char)
    (hlit : ((idc ++ namec).all fun c => !(regexMetachars.contains c)) = true)
    (h : hasDeleteMatch idc namec content = false) :
    delete_component_in_symbol_lib content idc namec = some content := by
  have hguard : ((idc ++ namec).all modeledPatternChar) = true := by
    rw [List.all_eq_true] at hlit ⊢
    intro c hc
    have hcc := hlit c hc
    simp only [modeledPatternChar, hcc, Bool.or_true]
  rw [delete_component_in_symbol_lib, if_pos hguard,
    deleteAux_no_match idc namec content.length content h]

/-- C9 amended-claim witness: deleting component `C1` named `X` (no
metacharacters) from content that holds no matching block leaves the
content unchanged. -/
theorem delete_component_no_match_witness :
    delete_component_in_symbol_lib
      ['h', 'e', 'l', 'l', 'o'] ['C', '1'] ['X'] =
      some ['h', 'e', 'l', 'l', 'o'] :=
  delete_component_no_match ['h', 'e', 'l', 'l', 'o'] ['C', '1'] ['X']
    (by decide) (by decide)

/-- `pySplit` always returns at least one part, like Python `str.split`. -/
theorem pySplit_ne_nil (sep : Char) (l : List Char) : pySplit sep l ≠ [] := by
  induction l with
  | nil => simp [pySplit]
  | cons c rest ih =>
    simp only [pySplit]
    by_cases h : c = sep
    · simp [h]
    · rw [if_neg h]
      cases hr : pySplit sep rest with
      | nil => simp
      | cons a t => simp

/-- The first part of a Python split is the run before the first
separator. -/
theorem pySplit_getD_zero (sep : Char) (l : List Char) :
    (pySplit sep l).getD 0 [] = l.takeWhile (· != sep) := by
  induction l with
  | nil => rfl
  | cons c rest ih =>
    simp only [pySplit, List.takeWhile]
    by_cases h : c = sep
    · simp [h]
    · rw [if_neg h]
      have hb : (c != sep) = true := by simp [h]
      rw [hb]
      cases hr : pySplit sep rest with
      | nil => exact absurd hr (pySplit_ne_nil sep rest)
      | cons a t =>
        rw [hr] at ih
        simp only [List.getD, List.get?_cons_zero, Option.getD_some] at ih ⊢
        rw [ih]

/-- The second part of a Python split is the run between the first
separator and the next one (present whenever the separator occurs). -/
theorem pySplit_getD_one (sep : Char) (l : List Char) (h : sep ∈ l) :
    (pySplit sep l).getD 1 [] =
      ((l.dropWhile (· != sep)).drop 1).takeWhile (· != sep) := by
  induction l with
  | nil => cases h
  | cons c rest ih =>
    simp only [pySplit, List.dropWhile]
    by_cases hc : c = sep
    · rw [if_pos hc]
      have hb : (c != sep) = false := by simp [hc]
      rw [hb]
      simp only [List.drop_one, List.tail_cons]
      have : ([] :: pySplit sep rest).getD 1 [] =
          (pySplit sep rest).getD 0 [] := rfl
      rw [this, pySplit_getD_zero]
    · rw [if_neg hc]
      have hmem : sep ∈ rest := by
        cases h with
        | head => exact absurd rfl hc
        | tail _ hm => exact hm
      have hb : (c != sep) = true := by simp [hc]
      rw [hb]
      cases hr : pySplit sep rest with
      | nil => exact absurd hr (pySplit_ne_nil sep rest)
      | cons a t =>
        rw [hr] at ih
        have : ((c :: a) :: t).getD 1 [] = (a :: t).getD 1 [] := rfl
        rw [this, ih hmem]

/-- Chained `takeWhile`s take while both predicates hold. -/
theorem takeWhile_takeWhile_chain (p q : Char → Bool) (l : List Char) :
    (l.takeWhile p).takeWhile q = l.takeWhile (fun a => p a && q a) := by
  induction l with
  | nil => rfl
  | cons c rest ih =>
    simp only [List.takeWhile]
    cases hp : p c with
    | false => rfl
    | true =>
      simp only [Bool.true_and, List.takeWhile]
      cases hq : q c with
      | false => rfl
      | true => rw [ih]

/-- C10 counterexample: for the pin number `A((1)`, which contains both
`(` and `)`, the code emits the empty string, not the substring `(1`
between the first `(` and the next `)` stated by the claim. -/
theorem pad_number_claim_false :
    pad_number_transform ['A', '(', '(', '1', ')'] = [] ∧
    spec_between_parens ['A', '(', '(', '1', ')'] = ['(', '1'] ∧
    ([] : List Char) ≠ ['(', '1'] := by
  refine ⟨by decide, by decide, by decide⟩

/-- C10 (amended): when the pin number contains both `(` and `)`, the
emitted pad number is the run of characters after the first `(` up to the
next `(` or `)` (whichever comes first, to the end if neither occurs);
numbers lacking either character are emitted unchanged. -/
theorem pad_number_spec (s : List Char) :
    (('(' ∈ s ∧ ')' ∈ s) → pad_number_transform s =
      ((s.dropWhile (· != '(')).drop 1).takeWhile
        (fun c => c != '(' && c != ')')) ∧
    (¬('(' ∈ s ∧ ')' ∈ s) → pad_number_transform s = s) := by
  constructor
  · intro h
    simp only [pad_number_transform, if_pos h]
    rw [pySplit_getD_zero, pySplit_getD_one '(' s h.1,
      takeWhile_takeWhile_chain]
  · intro h
    simp only [pad_number_transform, if_neg h]

/-- C10 amended-claim witness at the pin number `A(1)`. -/
theorem pad_number_spec_witness :
    pad_number_transform ['A', '(', '1', ')'] =
      (((['A', '(', '1', ')'].dropWhile (· != '(')).drop 1).takeWhile
        (fun c => c != '(' && c != ')')) :=
  (pad_number_spec ['A', '(', '1', ')']).1 (by decide)

/-- Rotation by zero degrees is the identity, since the source computes
the angle as `(0 / 180) * 2 * pi = 0`. -/
theorem rotate_zero (x y : ℝ) : rotate x y 0 = (x, y) := by
  simp [rotate]

/-- C5: when the parsed secondary radius is zero the footprint translator
emits the degenerate arc with center `(0, 0)` and zero extent, without
invoking `compute_arc`; `translate_arc` is a total function, so this
well-typed degenerate geometry never raises. -/
theorem translate_arc_degenerate (start_x start_y rx ry x_axis_rotation : ℝ)
    (large_arc sweep : Bool) (end_x end_y : ℝ) (h : ry = 0) :
    translate_arc start_x start_y rx ry x_axis_rotation large_arc sweep
      end_x end_y = ⟨0, 0, end_x, end_y, 0⟩ := by
  subst h
  simp [translate_arc, rotate_zero]

/-- C5 witness: a concrete degenerate arc. -/
theorem translate_arc_degenerate_witness :
    translate_arc 1 2 3 0 0 false true 4 5 = ⟨0, 0, 4, 5, 0⟩ :=
  translate_arc_degenerate 1 2 3 0 0 false true 4 5 rfl

/-- The four directed edges of the square test polygon. -/
theorem polygonEdges_square :
    polygonEdges squarePoly =
      [((0, 0), (10, 0)), ((10, 0), (10, 10)), ((10, 10), (0, 10)),
       ((0, 10), (0, 0))] := rfl

/-- Any point of the closed square `[0,10] x [0,10]` passes the
point-in-polygon test for the square polygon: boundary points hit the
exact on-segment test, interior points get winding number `1`. -/
theorem square_mem (px py : ℝ) (h1 : 0 ≤ px) (h2 : px ≤ 10)
    (h3 : 0 ≤ py) (h4 : py ≤ 10) :
    is_point_in_polygon (px, py) squarePoly := by
  have m010 : min (0 : ℝ) 10 = 0 := min_eq_left (by norm_num)
  have M010 : max (0 : ℝ) 10 = 10 := max_eq_right (by norm_num)
  have m100 : min (10 : ℝ) 0 = 0 := min_eq_right (by norm_num)
  have M100 : max (10 : ℝ) 0 = 10 := max_eq_left (by norm_num)
  by_cases hy0 : py = 0
  · left
    refine ⟨((0, 0), (10, 0)), by rw [polygonEdges_square]; simp, ?_⟩
    subst hy0
    simp only [is_on_segment, m010, M010, min_self, max_self]
    refine ⟨h1, h2, le_refl 0, le_refl 0, by norm_num⟩
  by_cases hy10 : py = 10
  · left
    refine ⟨((10, 10), (0, 10)), by rw [polygonEdges_square]; simp, ?_⟩
    subst hy10
    simp only [is_on_segment, m100, M100, min_self, max_self]
    refine ⟨h1, h2, le_refl 10, le_refl 10, by norm_num⟩
  by_cases hx0 : px = 0
  · left
    refine ⟨((0, 10), (0, 0)), by rw [polygonEdges_square]; simp, ?_⟩
    subst hx0
    simp only [is_on_segment, m100, M100, min_self, max_self]
    refine ⟨le_refl 0, le_refl 0, h3, h4, by norm_num⟩
  by_cases hx10 : px = 10
  · left
    refine ⟨((10, 0), (10, 10)), by rw [polygonEdges_square]; simp, ?_⟩
    subst hx10
    simp only [is_on_segment, m010, M010, min_self, max_self]
    refine ⟨le_refl 10, le_refl 10, h3, h4, by norm_num⟩
  · right
    have hpx : px < 10 := lt_of_le_of_ne h2 hx10
    have hpx0 : 0 < px := lt_of_le_of_ne h1 (Ne.symm hx0)
    have hpy : py < 10 := lt_of_le_of_ne h4 hy10
    rw [polygonEdges_square]
    simp only [List.map_cons, List.map_nil, List.sum_cons, List.sum_nil]
    have he0 : windingContribution ((0, 0), (10, 0)) px py = 0 := by
      simp only [windingContribution]
      rw [if_neg (by rintro ⟨a, b, -⟩; linarith),
        if_neg (by rintro ⟨a, b, -⟩; linarith)]
    have he1 : windingContribution ((10, 0), (10, 10)) px py = 1 := by
      simp only [windingContribution]
      rw [if_pos ⟨h3, hpy, by simp only [is_left]; nlinarith⟩]
    have he2 : windingContribution ((10, 10), (0, 10)) px py = 0 := by
      simp only [windingContribution]
      rw [if_neg (by rintro ⟨a, b, -⟩; linarith),
        if_neg (by rintro ⟨a, b, -⟩; linarith)]
    have he3 : windingContribution ((0, 10), (0, 0)) px py = 0 := by
      simp only [windingContribution]
      rw [if_neg (by rintro ⟨a, b, -⟩; linarith),
        if_neg (by
          rintro ⟨-, -, hn⟩
          exact hn (by simp only [is_left]; nlinarith))]
    rw [he0, he1, he2, he3]
    norm_num

/-- A point strictly left of the square fails the point-in-polygon test:
no edge contains it and the winding contributions cancel. -/
theorem square_not_mem_left (px py : ℝ) (h : px < 0) :
    ¬is_point_in_polygon (px, py) squarePoly := by
  have m010 : min (0 : ℝ) 10 = 0 := min_eq_left (by norm_num)
  have m100 : min (10 : ℝ) 0 = 0 := min_eq_right (by norm_num)
  rintro (⟨e, he, hseg⟩ | hw)
  · rw [polygonEdges_square] at he
    simp only [List.mem_cons, List.not_mem_nil, or_false] at he
    rcases he with rfl | rfl | rfl | rfl <;>
      · simp only [is_on_segment, m010, m100, min_self, max_self] at hseg
        linarith [hseg.1, hseg.2.2.1]
  · apply hw
    rw [polygonEdges_square]
    simp only [List.map_cons, List.map_nil, List.sum_cons, List.sum_nil]
    have he0 : windingContribution ((0, 0), (10, 0)) px py = 0 := by
      simp only [windingContribution]
      rw [if_neg (by rintro ⟨a, b, -⟩; linarith),
        if_neg (by rintro ⟨a, b, -⟩; linarith)]
    have he2 : windingContribution ((10, 10), (0, 10)) px py = 0 := by
      simp only [windingContribution]
      rw [if_neg (by rintro ⟨a, b, -⟩; linarith),
        if_neg (by rintro ⟨a, b, -⟩; linarith)]
    by_cases hpy : 0 ≤ py ∧ py < 10
    · have he1 : windingContribution ((10, 0), (10, 10)) px py = 1 := by
        simp only [windingContribution]
        rw [if_pos ⟨hpy.1, hpy.2, by simp only [is_left]; nlinarith⟩]
      have he3 : windingContribution ((0, 10), (0, 0)) px py = -1 := by
        simp only [windingContribution]
        rw [if_neg (by rintro ⟨a, b, -⟩; linarith),
          if_pos ⟨hpy.1, hpy.2, by simp only [is_left]; nlinarith⟩]
      rw [he0, he1, he2, he3]; norm_num
    · have he1 : windingContribution ((10, 0), (10, 10)) px py = 0 := by
        simp only [windingContribution]
        rw [if_neg (by rintro ⟨a, b, -⟩; exact hpy ⟨a, b⟩),
          if_neg (by rintro ⟨a, b, -⟩; linarith)]
      have he3 : windingContribution ((0, 10), (0, 0)) px py = 0 := by
        simp only [windingContribution]
        rw [if_neg (by rintro ⟨a, b, -⟩; linarith),
          if_neg (by rintro ⟨a, b, -⟩; exact hpy ⟨a, b⟩)]
      rw [he0, he1, he2, he3]; norm_num

/-- A point strictly below the square fails the point-in-polygon test. -/
theorem square_not_mem_below (px py : ℝ) (h : py < 0) :
    ¬is_point_in_polygon (px, py) squarePoly := by
  have m010 : min (0 : ℝ) 10 = 0 := min_eq_left (by norm_num)
  have m100 : min (10 : ℝ) 0 = 0 := min_eq_right (by norm_num)
  rintro (⟨e, he, hseg⟩ | hw)
  · rw [polygonEdges_square] at he
    simp only [List.mem_cons, List.not_mem_nil, or_false] at he
    rcases he with rfl | rfl | rfl | rfl <;>
      · simp only [is_on_segment, m010, m100, min_self, max_self] at hseg
        linarith [hseg.1, hseg.2.2.1]
  · apply hw
    rw [polygonEdges_square]
    simp only [List.map_cons, List.map_nil, List.sum_cons, List.sum_nil]
    have he0 : windingContribution ((0, 0), (10, 0)) px py = 0 := by
      simp only [windingContribution]
      rw [if_neg (by rintro ⟨a, b, -⟩; linarith),
        if_neg (by rintro ⟨a, b, -⟩; linarith)]
    have he1 : windingContribution ((10, 0), (10, 10)) px py = 0 := by
      simp only [windingContribution]
      rw [if_neg (by rintro ⟨a, b, -⟩; linarith),
        if_neg (by rintro ⟨a, b, -⟩; linarith)]
    have he2 : windingContribution ((10, 10), (0, 10)) px py = 0 := by
      simp only [windingContribution]
      rw [if_neg (by rintro ⟨a, b, -⟩; linarith),
        if_neg (by rintro ⟨a, b, -⟩; linarith)]
    have he3 : windingContribution ((0, 10), (0, 0)) px py = 0 := by
      simp only [windingContribution]
      rw [if_neg (by rintro ⟨a, b, -⟩; linarith),
        if_neg (by rintro ⟨a, b, -⟩; linarith)]
    rw [he0, he1, he2, he3]; norm_num

/-- The inscribed 12-gon of the unit circle at `(1, 1)` lies inside the
square polygon, so the containment test passes there. -/
theorem circle_at_one_one : is_circle_in_polygon (1, 1) 1 squarePoly := by
  intro v hv
  simp only [get_circumscribed_regular_polygon, List.mem_map,
    List.mem_range] at hv
  obtain ⟨i, -, rfl⟩ := hv
  refine square_mem _ _ ?_ ?_ ?_ ?_
  · have := Real.neg_one_le_cos (2 * Real.pi * i / 12)
    linarith
  · have := Real.cos_le_one (2 * Real.pi * i / 12)
    linarith
  · have := Real.neg_one_le_sin (2 * Real.pi * i / 12)
    linarith
  · have := Real.sin_le_one (2 * Real.pi * i / 12)
    linarith

/-- When the candidate center is left of `x = 1`, the 12-gon vertex at
angle `pi` (index 6) sticks out of the square, so the containment test
fails. -/
theorem not_circle_x_lt (cx cy : ℝ) (h : cx < 1) :
    ¬is_circle_in_polygon (cx, cy) 1 squarePoly := by
  intro hc
  have hmem : ((cx, cy).1 + 1 * Real.cos (2 * Real.pi * (6 : ℕ) / (12 : ℕ)),
      (cx, cy).2 + 1 * Real.sin (2 * Real.pi * (6 : ℕ) / (12 : ℕ))) ∈
      get_circumscribed_regular_polygon (cx, cy) 1 12 :=
    List.mem_map_of_mem
      (fun i : ℕ =>
        ((cx, cy).1 + 1 * Real.cos (2 * Real.pi * (i : ℝ) / ((12 : ℕ) : ℝ)),
         (cx, cy).2 + 1 * Real.sin (2 * Real.pi * (i : ℝ) / ((12 : ℕ) : ℝ))))
      (by decide : (6 : ℕ) ∈ List.range 12)
  have hpt := hc _ hmem
  have hang : 2 * Real.pi * ((6 : ℕ) : ℝ) / ((12 : ℕ) : ℝ) = Real.pi := by
    push_cast
    ring
  rw [hang, Real.cos_pi, Real.sin_pi] at hpt
  exact square_not_mem_left _ _ (by linarith) hpt

/-- When the candidate center is below `y = 1`, the 12-gon vertex at
angle `3*pi/2` (index 9) sticks out below the square, so the containment
test fails. -/
theorem not_circle_y_lt (cx cy : ℝ) (h : cy < 1) :
    ¬is_circle_in_polygon (cx, cy) 1 squarePoly := by
  intro hc
  have hmem : ((cx, cy).1 + 1 * Real.cos (2 * Real.pi * (9 : ℕ) / (12 : ℕ)),
      (cx, cy).2 + 1 * Real.sin (2 * Real.pi * (9 : ℕ) / (12 : ℕ))) ∈
      get_circumscribed_regular_polygon (cx, cy) 1 12 :=
    List.mem_map_of_mem
      (fun i : ℕ =>
        ((cx, cy).1 + 1 * Real.cos (2 * Real.pi * (i : ℝ) / ((12 : ℕ) : ℝ)),
         (cx, cy).2 + 1 * Real.sin (2 * Real.pi * (i : ℝ) / ((12 : ℕ) : ℝ))))
      (by decide : (9 : ℕ) ∈ List.range 12)
  have hpt := hc _ hmem
  have hang : 2 * Real.pi * ((9 : ℕ) : ℝ) / ((12 : ℕ) : ℝ) =
      Real.pi + Real.pi / 2 := by
    push_cast
    ring
  rw [hang, Real.cos_add, Real.sin_add, Real.cos_pi, Real.sin_pi,
    Real.cos_pi_div_two, Real.sin_pi_div_two] at hpt
  exact square_not_mem_below _ _ (by nlinarith) hpt

/-- `findSome?` skips a first chunk that yields nothing. -/
theorem findSome?_append_none {α β : Type} (f : α → Option β)
    (l1 l2 : List α) (h : ∀ a ∈ l1, f a = none) :
    (l1 ++ l2).findSome? f = l2.findSome? f := by
  induction l1 with
  | nil => rfl
  | cons a t ih =>
    simp only [List.cons_append, List.findSome?_cons,
      h a (List.mem_cons_self a t)]
    exact ih fun x hx => h x (List.mem_cons_of_mem a hx)

/-- The grid of `frange 0 10 0.05` is the 201 points `i/20`. -/
theorem frange_eval :
    frange 0 10 (1 / 20) =
      (List.range 201).map fun i : ℕ => 0 + 1 / 20 * (i : ℝ) := by
  have h1 : ((10 : ℝ) - 0) / (1 / 20) = 200 := by norm_num
  have h2 : pyTrunc 200 = 200 := by
    simp only [pyTrunc, if_neg (by norm_num : ¬(200 : ℝ) < 0)]
    norm_num
  have h3 : ((200 : ℤ) + 1).toNat = 201 := by decide
  simp only [frange, h1, h2, h3]

/-- Bounding box of the square test polygon. -/
theorem bounds_square : get_bounds_of_polygon squarePoly = (0, 10, 0, 10) := by
  simp only [get_bounds_of_polygon, squarePoly, List.map_cons, List.map_nil,
    listMin, listMax, List.foldl]
  norm_num [min_def, max_def]

open Classical in
/-- A scan column strictly left of `x = 1` finds no valid center. -/
theorem column_find_none (x : ℝ) (hx : x < 1) :
    ((frange 0 10 (1 / 20)).find? fun y =>
      decide (is_circle_in_polygon (x, y) 1 squarePoly)) = none := by
  rw [List.find?_eq_none]
  intro y _
  simp only [decide_eq_true_eq]
  exact not_circle_x_lt x y hx

open Classical in
/-- In the scan column at `x = 1`, the first valid grid point is
`y = 1`, reached after the 20 points below it all fail. -/
theorem column_find_one :
    ((frange 0 10 (1 / 20)).find? fun y =>
      decide (is_circle_in_polygon (1, y) 1 squarePoly)) = some 1 := by
  rw [frange_eval]
  have hsplit : (201 : ℕ) = 20 + 181 := by norm_num
  rw [hsplit, List.range_add, List.map_append, List.find?_append]
  have hfirst : ((List.range 20).map fun i : ℕ =>
      0 + 1 / 20 * (i : ℝ)).find? (fun y =>
      decide (is_circle_in_polygon (1, y) 1 squarePoly)) = none := by
    rw [List.find?_eq_none]
    intro y hy
    simp only [List.mem_map, List.mem_range] at hy
    obtain ⟨i, hi, rfl⟩ := hy
    simp only [decide_eq_true_eq]
    apply not_circle_y_lt
    have : (i : ℝ) < 20 := by exact_mod_cast hi
    linarith
  rw [hfirst]
  simp only [Option.none_or]
  rw [List.map_map, show (181 : ℕ) = 180 + 1 by norm_num,
    List.range_succ_eq_map, List.map_cons]
  have hval : ((fun i : ℕ => 0 + 1 / 20 * (i : ℝ)) ∘ fun x => 20 + x) 0 =
      (1 : ℝ) := by
    simp only [Function.comp]
    push_cast
    norm_num
  rw [hval]
  rw [List.find?_cons_of_pos _ (by
    simp only [decide_eq_true_eq]
    exact circle_at_one_one)]

/-- Evaluation scheme for a grid scan: if the first `k` entries of the
range yield nothing and entry `k` yields `b`, the whole scan yields
`b`. -/
theorem findSome?_range_eval {α β : Type} (f : ℕ → α) (g : α → Option β)
    (n k : ℕ) (b : β) (hk : k < n)
    (hnone : ∀ i, i < k → g (f i) = none) (hsome : g (f k) = some b) :
    ((List.range n).map f).findSome? g = some b := by
  rw [List.findSome?_map]
  obtain ⟨m, rfl⟩ : ∃ m, n = k + (m + 1) := ⟨n - k - 1, by omega⟩
  rw [List.range_add, findSome?_append_none _ _ _ ?h1]
  case h1 =>
    intro a ha
    rw [List.mem_range] at ha
    simp only [Function.comp_apply]
    exact hnone a ha
  rw [List.findSome?_map, List.range_succ_eq_map, List.findSome?_cons]
  simp only [Function.comp_apply, Nat.add_zero, hsome]

open Classical in
/-- C6: on the square polygon `[(0,0),(10,0),(10,10),(0,10)]` with radius
`1`, the grid scan (step `0.05`, `x` outer and `y` inner, ascending from
the minimum corner) returns exactly `(1, 1)`: the first 20 columns fail,
and in the column `x = 1` the first valid grid point is `y = 1`. -/
theorem find_circle_center_square :
    find_circle_center_in_polygon squarePoly 1 = some (1, 1) := by
  simp only [find_circle_center_in_polygon, bounds_square]
  rw [frange_eval]
  refine findSome?_range_eval _ _ 201 20 (1, 1) (by norm_num) ?_ ?_
  · intro i hi
    beta_reduce
    have hx : (0 : ℝ) + 1 / 20 * (i : ℝ) < 1 := by
      have : (i : ℝ) < 20 := by exact_mod_cast hi
      linarith
    have hnone := column_find_none (0 + 1 / 20 * (i : ℝ)) hx
    rw [frange_eval] at hnone
    rw [hnone]
    rfl
  · beta_reduce
    have harg : (0 : ℝ) + 1 / 20 * ((20 : ℕ) : ℝ) = 1 := by
      push_cast
      norm_num
    rw [harg]
    have hone := column_find_one
    rw [frange_eval] at hone
    rw [hone]
    rfl

open Classical in
/-- C7: the anchor repositioning is a no-op (and no warning) when the
pad's current center already passes the containment test; otherwise the
center is replaced by the scan's result; when the scan finds nothing the
original (possibly invalid) center is kept and only the warning flag is
set — the embedded operation is a total function, so translation
continues without raising. -/
theorem set_position_spec (pos : ℝ × ℝ) (w : ℝ) (poly : List (ℝ × ℝ)) :
    (is_circle_in_polygon pos (w / 2) poly →
      set_appropriate_position_for_custom_shape pos w poly = (pos, false)) ∧
    (¬is_circle_in_polygon pos (w / 2) poly →
      find_circle_center_in_polygon poly (w / 2) = none →
      set_appropriate_position_for_custom_shape pos w poly = (pos, true)) ∧
    (¬is_circle_in_polygon pos (w / 2) poly →
      ∀ c, find_circle_center_in_polygon poly (w / 2) = some c →
      set_appropriate_position_for_custom_shape pos w poly = (c, false)) := by
  refine ⟨?_, ?_, ?_⟩
  · intro h
    simp only [set_appropriate_position_for_custom_shape, if_pos h]
  · intro h hf
    simp only [set_appropriate_position_for_custom_shape, if_neg h, hf]
  · intro h c hf
    simp only [set_appropriate_position_for_custom_shape, if_neg h, hf]

/-- C7 witness: a pad of width `2` anchored at `(1, 1)` inside the square
polygon already satisfies containment, so it is left unchanged with no
warning. -/
theorem set_position_spec_witness :
    set_appropriate_position_for_custom_shape (1, 1) 2 squarePoly =
      ((1, 1), false) :=
  (set_position_spec (1, 1) 2 squarePoly).1
    (by rw [show (2 : ℝ) / 2 = 1 by norm_num]; exact circle_at_one_one)

/-- Hub of the semicircle round-trip: with both radii equal to the
half-chord length `r`, a zero axis rotation, `largeArcFlag = false` and
`sweepFlag = true`, `compute_arc` lands exactly on the chord midpoint
with signed extent `-180`. -/
theorem compute_arc_semicircle_aux (sx sy dx dy r : ℝ) (hrpos : 0 < r)
    (hr : r * r = dx ^ 2 + dy ^ 2) (hd : 0 < dx ^ 2 + dy ^ 2) :
    compute_arc sx sy r r 0 false true (sx - 2 * dx) (sy - 2 * dy) =
      ((sx + (sx - 2 * dx)) / 2, (sy + (sy - 2 * dy)) / 2, -180) := by
  have hr0 : r ≠ 0 := ne_of_gt hrpos
  have hrr0 : r * r ≠ 0 := mul_ne_zero hr0 hr0
  have habs : |r| = r := abs_of_pos hrpos
  have hfmod0 : fmod (0 : ℝ) 360 = 0 := by simp [fmod]
  have hrad0 : to_radians 0 = 0 := by simp [to_radians]
  have hdx : (sx - (sx - 2 * dx)) / 2 = dx := by ring
  have hdy : (sy - (sy - 2 * dy)) / 2 = dy := by ring
  have hsum : dx * dx + dy * dy = r * r := by linear_combination -hr
  have hRC : dx * dx / (r * r) + dy * dy / (r * r) = 1 := by
    rw [div_add_div_same, hsum, div_self hrr0]
  have hden : 0 < r * r * (dy * dy) + r * r * (dx * dx) := by
    have h1 : r * r * (dy * dy) + r * r * (dx * dx) =
        (dx ^ 2 + dy ^ 2) * (dx ^ 2 + dy ^ 2) := by rw [hr]; ring
    rw [h1]
    exact mul_pos hd hd
  have hnum : r * r * (r * r) - r * r * (dy * dy) - r * r * (dx * dx) = 0 := by
    linear_combination (r * r) * hr
  have hu : dx / r * (dx / r) + dy / r * (dy / r) = 1 := by
    rw [show dx / r * (dx / r) + dy / r * (dy / r) =
      (dx * dx + dy * dy) / (r * r) from by ring, hsum, div_self hrr0]
  have hv : -dx / r * (-dx / r) + -dy / r * (-dy / r) = 1 := by
    rw [show -dx / r * (-dx / r) + -dy / r * (-dy / r) =
      (dx * dx + dy * dy) / (r * r) from by ring, hsum, div_self hrr0]
  have hp : dx / r * (-dx / r) + dy / r * (-dy / r) = -1 := by
    rw [show dx / r * (-dx / r) + dy / r * (-dy / r) =
      -((dx * dx + dy * dy) / (r * r)) from by ring, hsum, div_self hrr0]
  have hcross : dx / r * (-dy / r) - dy / r * (-dx / r) = 0 := by ring
  have h180 : ¬(180 : ℝ) < 0 := by norm_num
  have habs180 : |(180 : ℝ)| = 180 := abs_of_pos (by norm_num)
  have hfmod180 : fmod (180 : ℝ) 360 = 180 := by
    simp only [fmod]
    norm_num
  have hdeg : to_degrees Real.pi = 180 := by
    simp [to_degrees, div_self Real.pi_ne_zero]
  have hmin : min (1 : ℝ) (-1) = -1 := by norm_num
  simp only [compute_arc, hfmod0, hrad0, Real.cos_zero, Real.sin_zero,
    one_mul, zero_mul, mul_zero, mul_one, add_zero, zero_add, neg_zero,
    sub_zero, hdx, hdy, habs, hrr0, ne_eq, not_false_iff, true_and, and_true,
    if_true, hRC, gt_iff_lt, lt_self_iff_false, if_false, Bool.false_eq_true,
    Bool.true_eq_false, false_and, hden, hnum, zero_div, max_self,
    Real.sqrt_zero, hr0, hu, hv, hp, hcross, one_ne_zero, Real.sqrt_one,
    div_one, hmin, Real.arccos_neg_one, hdeg, h180, habs180, hfmod180,
    mul_neg, neg_mul]

/-- C4: for every chord with distinct endpoints, `largeArcFlag = false`,
`sweepFlag = true`, zero axis rotation and both radii equal to half the
chord length, `compute_arc` returns an extent of magnitude exactly `180`
degrees and a center equidistant from the start and the end point. -/
theorem compute_arc_semicircle (sx sy ex ey r : ℝ)
    (hne : ¬(sx = ex ∧ sy = ey))
    (hrdef : r = Real.sqrt ((sx - ex) ^ 2 + (sy - ey) ^ 2) / 2) :
    |(compute_arc sx sy r r 0 false true ex ey).2.2| = 180 ∧
    ((compute_arc sx sy r r 0 false true ex ey).1 - sx) ^ 2 +
      ((compute_arc sx sy r r 0 false true ex ey).2.1 - sy) ^ 2 =
    ((compute_arc sx sy r r 0 false true ex ey).1 - ex) ^ 2 +
      ((compute_arc sx sy r r 0 false true ex ey).2.1 - ey) ^ 2 := by
  set dx := (sx - ex) / 2 with hdxdef
  set dy := (sy - ey) / 2 with hdydef
  have hex : ex = sx - 2 * dx := by rw [hdxdef]; ring
  have hey : ey = sy - 2 * dy := by rw [hdydef]; ring
  have hd : 0 < dx ^ 2 + dy ^ 2 := by
    rcases not_and_or.mp hne with h | h
    · have hdx0 : dx ≠ 0 := by
        rw [hdxdef]
        intro hc
        exact h (by linarith [hc])
      have := pow_two_pos_of_ne_zero hdx0
      nlinarith [sq_nonneg dy]
    · have hdy0 : dy ≠ 0 := by
        rw [hdydef]
        intro hc
        exact h (by linarith [hc])
      have := pow_two_pos_of_ne_zero hdy0
      nlinarith [sq_nonneg dx]
  have hr4 : (sx - ex) ^ 2 + (sy - ey) ^ 2 = 4 * (dx ^ 2 + dy ^ 2) := by
    rw [hdxdef, hdydef]; ring
  have hrs : r = Real.sqrt (dx ^ 2 + dy ^ 2) := by
    rw [hrdef, hr4, show (4 : ℝ) * (dx ^ 2 + dy ^ 2) =
      2 ^ 2 * (dx ^ 2 + dy ^ 2) by ring,
      Real.sqrt_mul (by positivity) (dx ^ 2 + dy ^ 2),
      Real.sqrt_sq (by norm_num : (0 : ℝ) ≤ 2)]
    ring
  have hrpos : 0 < r := by rw [hrs]; exact Real.sqrt_pos.mpr hd
  have hrr : r * r = dx ^ 2 + dy ^ 2 := by
    rw [hrs]; exact Real.mul_self_sqrt hd.le
  have key := compute_arc_semicircle_aux sx sy dx dy r hrpos hrr hd
  rw [hex, hey, key]
  constructor
  · norm_num
  · ring

/-- C4 witness: the semicircle over the chord from `(0,0)` to `(2,0)`
with radius `1`. -/
theorem compute_arc_semicircle_witness :
    |(compute_arc 0 0 1 1 0 false true 2 0).2.2| = 180 ∧
    ((compute_arc 0 0 1 1 0 false true 2 0).1 - 0) ^ 2 +
      ((compute_arc 0 0 1 1 0 false true 2 0).2.1 - 0) ^ 2 =
    ((compute_arc 0 0 1 1 0 false true 2 0).1 - 2) ^ 2 +
      ((compute_arc 0 0 1 1 0 false true 2 0).2.1 - 0) ^ 2 :=
  compute_arc_semicircle 0 0 2 0 1 (by norm_num)
    (by
      rw [show ((0 : ℝ) - 2) ^ 2 + ((0 : ℝ) - 0) ^ 2 = 2 ^ 2 by norm_num,
        Real.sqrt_sq (by norm_num : (0 : ℝ) ≤ 2)]
      norm_num)
